import Mathlib

/-!
Verification development for the combat-coaching pipeline.

The Rust sources are embedded shallowly:
* strings handled byte-by-byte by the parser are modelled as lists of
  characters; Rust slice operations that abort on out-of-range indices are
  modelled with explicit bounds checks returning Except;
* HashMap and HashSet containers are modelled as functions with pointwise
  update; vectors as lists;
* the engine hot loop (state update, pull transitions, dedup map, rule
  evaluation) is modelled as a pure step function.  Database writes, the
  debrief/snapshot fan-out and channel plumbing are external IO and carry no
  combat-state semantics, so they are not part of the model.
-/

namespace CombatCoaching

/-! ## Parser: character-level model of parser.rs -/

/-- Numeric value of a list of decimal digit characters (most significant
    first), as accumulated by an integer parse. -/
def digitsVal (l : List Char) : Nat :=
  l.foldl (fun a c => a * 10 + (c.toNat - '0'.toNat)) 0

/-- Model of Rust str parse for an unsigned integer of w bits: an optional
    leading plus sign, then one or more ASCII digits, value below 2 ^ w. -/
def parseUInt (w : Nat) (l : List Char) : Option Nat :=
  let ds := if l.head? = some '+' then l.drop 1 else l
  if ds ≠ [] ∧ ds.all (fun c => c.isDigit) ∧ digitsVal ds < 2 ^ w then
    some (digitsVal ds)
  else none

/-- Model of Rust trim_matches on the double-quote character: strip every
    leading and trailing quote. -/
def trimQuotes (l : List Char) : List Char :=
  ((l.dropWhile (fun c => c = '"')).reverse.dropWhile (fun c => c = '"')).reverse

/-- Index of the first occurrence of a character (Rust find). -/
def idxOfChar (c : Char) : List Char → Option Nat
  | [] => none
  | x :: xs => if x = c then some 0 else (idxOfChar c xs).map (fun i => i + 1)

/-- Index of the last occurrence of a character (Rust rfind). -/
def rfindChar (c : Char) : List Char → Option Nat
  | [] => none
  | x :: xs =>
    match rfindChar c xs with
    | some i => some (i + 1)
    | none => if x = c then some 0 else none

/-- Split at the first occurrence of a character (Rust split_once); none when
    the character does not occur. -/
def splitOnceChar (c : Char) : List Char → Option (List Char × List Char)
  | [] => none
  | x :: xs =>
    if x = c then some ([], xs)
    else (splitOnceChar c xs).map (fun p => (x :: p.1, p.2))

/-- Index of the first occurrence of two consecutive spaces (Rust find of the
    two-space separator between timestamp and payload). -/
def findDoubleSpace : List Char → Option Nat
  | [] => none
  | [_] => none
  | a :: b :: rest =>
    if a = ' ' ∧ b = ' ' then some 0
    else (findDoubleSpace (b :: rest)).map (fun i => i + 1)

/-- Whether the first list is an initial segment of the second. -/
def isPrefixOfChars : List Char → List Char → Bool
  | [], _ => true
  | _ :: _, [] => false
  | c :: cs, d :: ds => if c = d then isPrefixOfChars cs ds else false

/-- Model of Rust starts_with on strings. -/
def startsWithStr (s p : String) : Bool := isPrefixOfChars p.data s.data

instance exceptDecEq {ε α : Type} [DecidableEq ε] [DecidableEq α] :
    DecidableEq (Except ε α) := fun a b =>
  match a, b with
  | .error x, .error y =>
    if h : x = y then .isTrue (congrArg Except.error h) else .isFalse (by simp [h])
  | .ok x, .ok y =>
    if h : x = y then .isTrue (congrArg Except.ok h) else .isFalse (by simp [h])
  | .error _, .ok _ => .isFalse (fun he => Except.noConfusion he)
  | .ok _, .error _ => .isFalse (fun he => Except.noConfusion he)

/-- Rust slice s[..n]: aborts the program when n is out of range, modelled as
    an Except error. -/
def checkedTake (l : List Char) (n : Nat) : Except Unit (List Char) :=
  if n ≤ l.length then .ok (l.take n) else .error ()

/-- Rust slice s[n..]: aborts the program when n is out of range. -/
def checkedDrop (l : List Char) (n : Nat) : Except Unit (List Char) :=
  if n ≤ l.length then .ok (l.drop n) else .error ()

/-- Loop body of csv_fields: consume up to fuel further fields from rest.
    The fuel counts the remaining capacity of the while loop, which stops
    once max fields were pushed. -/
def csvFieldsGo : Nat → List Char → Except Unit (List (List Char))
  | 0, _ => .ok []
  | fuel + 1, rest =>
    if rest.isEmpty then .ok []
    else if rest.head? = some '"' then
      match checkedDrop rest 1 with
      | .error e => .error e
      | .ok inner =>
        let close := (idxOfChar '"' inner).getD inner.length
        let fieldEnd := min (close + 2) rest.length
        match checkedTake rest fieldEnd, checkedDrop rest fieldEnd with
        | .ok field, .ok after =>
          let next : Except Unit (List Char) :=
            if after.head? = some ',' then checkedDrop after 1 else .ok after
          match next with
          | .error e => .error e
          | .ok r => (csvFieldsGo fuel r).map (fun fs => field :: fs)
        | .error e, _ => .error e
        | _, .error e => .error e
    else
      let stop := (idxOfChar ',' rest).getD rest.length
      match checkedTake rest stop with
      | .error e => .error e
      | .ok field =>
        let next : Except Unit (List Char) :=
          if stop < rest.length then checkedDrop rest (stop + 1) else .ok []
        match next with
        | .error e => .error e
        | .ok r => (csvFieldsGo fuel r).map (fun fs => field :: fs)

/-- Split a CSV payload into at most max fields, respecting double-quoted
    fields; surrounding quotes are preserved in the returned slices. -/
def csv_fields (s : List Char) (max : Nat) : Except Unit (List (List Char)) :=
  csvFieldsGo max s

/-- Parse the log timestamp into milliseconds since midnight: split at the
    last space, parse HH:MM:SS, then normalise the fractional seconds to
    milliseconds. -/
def parse_timestamp (dt : List Char) : Except Unit (Option Nat) :=
  match rfindChar ' ' dt with
  | none => .ok none
  | some spacePos =>
    match checkedDrop dt (spacePos + 1) with
    | .error e => .error e
    | .ok time =>
      match splitOnceChar ':' time with
      | none => .ok none
      | some (hs, r1) =>
        match splitOnceChar ':' r1 with
        | none => .ok none
        | some (mins, sm) =>
          match parseUInt 64 hs, parseUInt 64 mins with
          | some h, some m =>
            let p := (splitOnceChar '.' sm).getD (sm, ['0'])
            match parseUInt 64 p.1, parseUInt 64 p.2 with
            | some s, some fracRaw =>
              let len := p.2.length
              let ms : Nat :=
                if len = 0 then 0
                else if len = 1 then fracRaw * 100
                else if len = 2 then fracRaw * 10
                else if len = 3 then fracRaw
                else if len = 4 then fracRaw / 10
                else fracRaw / 10 ^ (len - 3)
              .ok (some ((h * 3600 + m * 60 + s) * 1000 + ms))
            | _, _ => .ok none
          | _, _ => .ok none

/-- Typed combat log events (the LogEvent enum of parser.rs). -/
inductive LogEvent where
  | spellDamage (timestamp_ms : Nat) (source_guid source_name dest_guid dest_name : String)
      (spell_id : Nat) (spell_name : String) (amount : Nat)
  | swingDamage (timestamp_ms : Nat) (source_guid dest_guid : String) (amount : Nat)
  | spellCastSuccess (timestamp_ms : Nat) (source_guid source_name : String)
      (spell_id : Nat) (spell_name : String)
  | spellHeal (timestamp_ms : Nat) (source_guid dest_guid : String)
      (spell_id amount overhealing : Nat)
  | unitDied (timestamp_ms : Nat) (dest_guid dest_name : String)
  | spellInterrupted (timestamp_ms : Nat) (source_guid target_guid : String)
      (interrupted_spell_id : Nat) (interrupted_spell : String)
  | encounterStart (timestamp_ms encounter_id : Nat) (encounter_name : String)
      (difficulty_id group_size : Nat)
  | encounterEnd (timestamp_ms encounter_id : Nat) (encounter_name : String) (success : Bool)
  | spellCastFailed (timestamp_ms : Nat) (source_guid source_name : String)
      (spell_id : Nat) (spell_name failed_type : String)
  | spellCastStart (timestamp_ms : Nat) (source_guid source_name : String)
      (spell_id : Nat) (spell_name : String)
  deriving DecidableEq

/-- Timestamp accessor of LogEvent. -/
def LogEvent.timestamp_ms : LogEvent → Nat
  | .spellDamage t _ _ _ _ _ _ _ => t
  | .swingDamage t _ _ _ => t
  | .spellCastSuccess t _ _ _ _ => t
  | .spellHeal t _ _ _ _ _ => t
  | .unitDied t _ _ => t
  | .spellInterrupted t _ _ _ _ => t
  | .encounterStart t _ _ _ _ => t
  | .encounterEnd t _ _ _ => t
  | .spellCastFailed t _ _ _ _ _ => t
  | .spellCastStart t _ _ _ _ => t

/-- Dispatch on the leading subevent token: the big match of parse_line.
    All field accesses are Option-returning gets; no operation can abort. -/
def dispatch (ts : Nat) (f : List (List Char)) : Option LogEvent :=
  match f.get? 1, f.get? 2 with
  | some g1, some g2 =>
    let srcGuid := String.mk (trimQuotes g1)
    let srcName := String.mk (trimQuotes g2)
    let dstGuid := String.mk (trimQuotes ((f.get? 5).getD []))
    let dstName := String.mk (trimQuotes ((f.get? 6).getD []))
    match f.get? 0 with
    | none => none
    | some tok =>
      if tok = "SPELL_DAMAGE".toList ∨ tok = "SPELL_PERIODIC_DAMAGE".toList ∨
          tok = "RANGE_DAMAGE".toList then
        match (f.get? 9).bind (parseUInt 32), f.get? 10 with
        | some spellId, some sn =>
          some (.spellDamage ts srcGuid srcName dstGuid dstName spellId
            (String.mk (trimQuotes sn)) (((f.get? 14).bind (parseUInt 64)).getD 0))
        | _, _ => none
      else if tok = "SWING_DAMAGE".toList then
        some (.swingDamage ts srcGuid dstGuid (((f.get? 12).bind (parseUInt 64)).getD 0))
      else if tok = "SPELL_CAST_SUCCESS".toList then
        match (f.get? 9).bind (parseUInt 32), f.get? 10 with
        | some spellId, some sn =>
          some (.spellCastSuccess ts srcGuid srcName spellId (String.mk (trimQuotes sn)))
        | _, _ => none
      else if tok = "SPELL_HEAL".toList ∨ tok = "SPELL_PERIODIC_HEAL".toList then
        match (f.get? 9).bind (parseUInt 32) with
        | some spellId =>
          some (.spellHeal ts srcGuid dstGuid spellId
            (((f.get? 14).bind (parseUInt 64)).getD 0)
            (((f.get? 15).bind (parseUInt 64)).getD 0))
        | none => none
      else if tok = "UNIT_DIED".toList then
        some (.unitDied ts dstGuid dstName)
      else if tok = "SPELL_INTERRUPT".toList then
        match (f.get? 12).bind (parseUInt 32), f.get? 13 with
        | some intId, some intName =>
          some (.spellInterrupted ts srcGuid dstGuid intId (String.mk (trimQuotes intName)))
        | _, _ => none
      else if tok = "ENCOUNTER_START".toList then
        match parseUInt 32 g1, f.get? 3, f.get? 4 with
        | some eid, some d3, some d4 =>
          some (.encounterStart ts eid srcName ((parseUInt 32 d3).getD 0)
            ((parseUInt 32 d4).getD 0))
        | _, _, _ => none
      else if tok = "ENCOUNTER_END".toList then
        match parseUInt 32 g1 with
        | some eid =>
          some (.encounterEnd ts eid srcName
            ((((f.get? 5).bind (parseUInt 8)).map (fun v => v == 1)).getD false))
        | none => none
      else if tok = "SPELL_CAST_FAILED".toList then
        match (f.get? 9).bind (parseUInt 32), f.get? 10 with
        | some spellId, some sn =>
          some (.spellCastFailed ts srcGuid srcName spellId (String.mk (trimQuotes sn))
            (String.mk (trimQuotes ((f.get? 12).getD []))))
        | _, _ => none
      else if tok = "SPELL_CAST_START".toList then
        match (f.get? 9).bind (parseUInt 32), f.get? 10 with
        | some spellId, some sn =>
          some (.spellCastStart ts srcGuid srcName spellId (String.mk (trimQuotes sn)))
        | _, _ => none
      else none
  | _, _ => none

/-- Split a raw log line into (timestamp_ms, fields): the timestamp ends at
    the first double space; the remainder is split as CSV into 30 fields. -/
def split_line (raw : List Char) : Except Unit (Option (Nat × List (List Char))) :=
  match findDoubleSpace raw with
  | none => .ok none
  | some sep =>
    match checkedTake raw sep, checkedDrop raw (sep + 2) with
    | .ok tsStr, .ok payload =>
      match parse_timestamp tsStr with
      | .error e => .error e
      | .ok none => .ok none
      | .ok (some ts) =>
        match csv_fields payload 30 with
        | .error e => .error e
        | .ok fields => .ok (some (ts, fields))
    | .error e, _ => .error e
    | _, .error e => .error e

/-- Parse one raw log line into a typed event; none for every malformed or
    unrecognised line. -/
def parse_line (raw : List Char) : Except Unit (Option LogEvent) :=
  match split_line raw with
  | .error e => .error e
  | .ok none => .ok none
  | .ok (some (ts, f)) => .ok (dispatch ts f)

/-! ## Combat state: model of state.rs -/

/-- Outcome of a pull. -/
inductive PullOutcome where
  | kill
  | wipe
  deriving DecidableEq

/-- One combat pull. -/
structure Pull where
  pull_number : Nat
  start_ms : Nat
  end_ms : Option Nat
  outcome : Option PullOutcome
  deriving DecidableEq

/-- Rolling window of recent events. -/
structure EventWindow where
  events : List (Nat × LogEvent)
  window_ms : Nat

/-- Append an event and drop entries older than the window. -/
def EventWindow.push (w : EventWindow) (e : LogEvent) (now : Nat) : EventWindow :=
  { w with events := (w.events ++ [(now, e)]).filter (fun p => now - w.window_ms ≤ p.1) }

/-- Learned interruptible-spell knowledge; the set persists across pulls. -/
structure InterruptTracker where
  interruptible_spells : Nat → Bool

/-- Record a spell as interruptible. -/
def InterruptTracker.record_interrupt (t : InterruptTracker) (id : Nat) : InterruptTracker :=
  ⟨fun x => if x = id then true else t.interruptible_spells x⟩

/-- Called on pull start: intentionally keeps the learned set. -/
def InterruptTracker.reset_per_pull (t : InterruptTracker) : InterruptTracker := t

/-- Damage-taken history for the current pull. -/
structure DamageTakenTracker where
  events : List (Nat × Nat)

/-- Record one hit. -/
def DamageTakenTracker.record (d : DamageTakenTracker) (ts amount : Nat) : DamageTakenTracker :=
  ⟨d.events ++ [(ts, amount)]⟩

/-- Sum of damage taken within the last window_ms milliseconds. -/
def DamageTakenTracker.recent_damage (d : DamageTakenTracker) (now window : Nat) : Nat :=
  ((d.events.filter (fun p => now - window ≤ p.1)).map (fun p => p.2)).sum

/-- Per-pull avoidable-hit bookkeeping: spell id to hit count and timestamps. -/
structure AvoidableTracker where
  hit_counts : Nat → Nat
  hit_timestamps : Nat → List Nat

/-- Record one hit of a spell. -/
def AvoidableTracker.record_hit (a : AvoidableTracker) (id ts : Nat) : AvoidableTracker :=
  ⟨fun x => if x = id then a.hit_counts x + 1 else a.hit_counts x,
   fun x => if x = id then a.hit_timestamps x ++ [ts] else a.hit_timestamps x⟩

/-- Hit count of a spell this pull (0 when never hit). -/
def AvoidableTracker.hit_count (a : AvoidableTracker) (id : Nat) : Nat := a.hit_counts id

/-- Observed last-use times of spells this pull. -/
structure CooldownTracker where
  last_used : Nat → Option Nat

/-- Record an observed cast. -/
def CooldownTracker.record_cast (c : CooldownTracker) (id ts : Nat) : CooldownTracker :=
  ⟨fun x => if x = id then some ts else c.last_used x⟩

/-- Last observed cast timestamp of a spell, none when never seen this pull. -/
def CooldownTracker.last_used_ms (c : CooldownTracker) (id : Nat) : Option Nat := c.last_used id

/-- Gap between the last two coached casts. -/
structure GcdTracker where
  last_cast_ms : Option Nat
  current_gap_ms : Nat

/-- Record a coached cast: when a previous cast exists the gap becomes the
    saturating difference of the two timestamps. -/
def GcdTracker.record_cast (g : GcdTracker) (ts : Nat) : GcdTracker :=
  match g.last_cast_ms with
  | some last => ⟨some ts, ts - last⟩
  | none => ⟨some ts, g.current_gap_ms⟩

/-- The complete combat state owned by the engine. -/
structure CombatState where
  current_pull : Option Pull
  pull_history : List Pull
  event_window : EventWindow
  avoidable : AvoidableTracker
  cooldowns : CooldownTracker
  gcd : GcdTracker
  in_combat : Bool
  player_guid : Option String
  interrupt_count : Nat
  encounter_name : Option String
  interrupts : InterruptTracker
  damage_taken : DamageTakenTracker
  last_player_cast_ms : Option Nat

/-- Fresh combat state. -/
def CombatState.new : CombatState where
  current_pull := none
  pull_history := []
  event_window := ⟨[], 30000⟩
  avoidable := ⟨fun _ => 0, fun _ => []⟩
  cooldowns := ⟨fun _ => none⟩
  gcd := ⟨none, 0⟩
  in_combat := false
  player_guid := none
  interrupt_count := 0
  encounter_name := none
  interrupts := ⟨fun _ => false⟩
  damage_taken := ⟨[]⟩
  last_player_cast_ms := none

/-- Open a new pull: reset the per-pull trackers, keep learned interrupts. -/
def CombatState.start_pull (s : CombatState) (t : Nat) : CombatState :=
  { s with
    current_pull := some ⟨s.pull_history.length + 1, t, none, none⟩
    avoidable := ⟨fun _ => 0, fun _ => []⟩
    cooldowns := ⟨fun _ => none⟩
    gcd := ⟨none, 0⟩
    interrupt_count := 0
    damage_taken := ⟨[]⟩
    interrupts := s.interrupts.reset_per_pull
    last_player_cast_ms := none
    in_combat := true }

/-- Close the current pull (if any) with the given outcome and push it into
    the history; always leaves combat. -/
def CombatState.end_pull (s : CombatState) (t : Nat) (o : PullOutcome) : CombatState :=
  match s.current_pull with
  | some p =>
    { s with
      current_pull := none
      pull_history := s.pull_history ++ [{ p with end_ms := some t, outcome := some o }]
      in_combat := false }
  | none => { s with in_combat := false }

/-- Milliseconds since pull start (saturating); 0 when no pull is open. -/
def CombatState.pull_elapsed_ms (s : CombatState) (now : Nat) : Nat :=
  (s.current_pull.map (fun p => now - p.start_ms)).getD 0

/-- The state machine of engine.rs: update the combat state with one event. -/
def update_state (s : CombatState) (e : LogEvent) (now : Nat) : CombatState :=
  match e with
  | .spellCastSuccess _ srcGuid _ spellId _ =>
    let s1 := if s.in_combat then s else s.start_pull now
    if s1.player_guid = some srcGuid then
      { s1 with
        gcd := s1.gcd.record_cast now
        cooldowns := s1.cooldowns.record_cast spellId now }
    else s1
  | .spellDamage _ _ _ destGuid _ spellId _ amount =>
    let s1 :=
      if s.player_guid = some destGuid then
        { s with
          avoidable := s.avoidable.record_hit spellId now
          damage_taken := s.damage_taken.record now amount }
      else s
    { s1 with event_window := s1.event_window.push e now }
  | .swingDamage _ _ destGuid amount =>
    let s1 :=
      if s.player_guid = some destGuid then
        { s with damage_taken := s.damage_taken.record now amount }
      else s
    { s1 with event_window := s1.event_window.push e now }
  | .unitDied _ destGuid _ =>
    if s.in_combat ∧ s.encounter_name = none then
      s.end_pull now (if startsWithStr destGuid "Creature" then .kill else .wipe)
    else s
  | .spellInterrupted _ srcGuid _ intId _ =>
    let s1 :=
      if s.player_guid = some srcGuid then
        { s with
          interrupt_count := s.interrupt_count + 1
          interrupts := s.interrupts.record_interrupt intId }
      else s
    { s1 with event_window := s1.event_window.push e now }
  | .encounterStart _ _ ename _ _ =>
    let s1 := { s with encounter_name := some ename }
    if s1.in_combat then s1 else s1.start_pull now
  | .encounterEnd _ _ _ success =>
    let s1 := if s.in_combat then s.end_pull now (if success then .kill else .wipe) else s
    { s1 with encounter_name := none }
  | .spellCastFailed _ _ _ _ _ _ =>
    { s with event_window := s.event_window.push e now }
  | .spellCastStart _ _ _ _ _ =>
    { s with event_window := s.event_window.push e now }
  | .spellHeal _ _ _ _ _ _ =>
    { s with event_window := s.event_window.push e now }

/-! ## Rule evaluator and engine: model of engine.rs and rules/ -/

/-- Advice severity. -/
inductive Severity where
  | good
  | warn
  | bad
  deriving DecidableEq

/-- One advice event.  The display payload (formatted message and kv pairs,
    built with floating-point formatting) carries no engine semantics and is
    not modelled. -/
structure AdviceEvent where
  key : String
  title : String
  severity : Severity
  timestamp_ms : Nat
  deriving DecidableEq

/-- Minimum milliseconds between two firings of the same advice key. -/
def advice_cooldown_ms : Severity → Nat
  | .bad => 8000
  | .warn => 12000
  | .good => 20000

/-- Dedup check: a key may fire when at least the cooldown of its severity
    has passed since its last firing; an absent key counts as last fired
    at 0. -/
def can_fire (m : String → Option Nat) (key : String) (sv : Severity) (now : Nat) : Bool :=
  decide (advice_cooldown_ms sv ≤ now - ((m key).getD 0))

/-- Record a firing of a key. -/
def mark_fired (m : String → Option Nat) (key : String) (now : Nat) : String → Option Nat :=
  fun x => if x = key then some now else m x

/-- The candidate loop of the engine: walk the candidates in order, firing
    each that passes the dedup check and updating the map immediately.
    Returns the updated map and the fired advice. -/
def dedupRun (m : String → Option Nat) (now : Nat) :
    List AdviceEvent → (String → Option Nat) × List AdviceEvent
  | [] => (m, [])
  | a :: rest =>
    if can_fire m a.key a.severity now then
      let r := dedupRun (mark_fired m a.key now) now rest
      (r.1, a :: r.2)
    else dedupRun m now rest

/-- Read-only context passed to every rule evaluator. -/
structure RuleContext where
  state : CombatState
  intensity : Nat
  now_ms : Nat

/-- Rule avoidable_repeat: coached player hit by the same spell twice or more
    this pull. -/
def avoidable_repeat_eval (e : LogEvent) (ctx : RuleContext) : List AdviceEvent :=
  match e with
  | .spellDamage _ _ _ destGuid _ spellId _ _ =>
    if ctx.state.player_guid ≠ some destGuid then []
    else if ctx.state.avoidable.hit_count spellId < 2 then []
    else [⟨"avoidable_repeat", "Avoidable damage repeating", .bad, ctx.now_ms⟩]
  | _ => []

/-- Rule gcd_gap: large gap between two consecutive coached casts. -/
def gcd_gap_eval (e : LogEvent) (ctx : RuleContext) : List AdviceEvent :=
  match e with
  | .spellCastSuccess _ srcGuid _ _ _ =>
    if ctx.state.player_guid ≠ some srcGuid then []
    else if ctx.intensity < 3 then []
    else if ctx.state.gcd.current_gap_ms < 2500 then []
    else [⟨"gcd_gap", "Large GCD gap", .warn, ctx.now_ms⟩]
  | _ => []

/-- Rule cooldown_drift: a major cooldown first used late into the pull.
    The first-use test compares the recorded last use of the spell with the
    current timestamp, exactly as the source does. -/
def cooldown_drift_eval (e : LogEvent) (ctx : RuleContext) (majorCds : List Nat) :
    List AdviceEvent :=
  match e with
  | .spellCastSuccess _ srcGuid _ spellId _ =>
    if ctx.state.player_guid ≠ some srcGuid then []
    else if spellId ∉ majorCds then []
    else if ctx.state.pull_elapsed_ms ctx.now_ms < 8000 then []
    else
      let pullStart := ((ctx.state.current_pull.map Pull.start_ms)).getD 0
      let firstUse : Bool :=
        match ctx.state.cooldowns.last_used_ms spellId with
        | some t => decide (pullStart ≤ t) && decide (t = ctx.now_ms)
        | none => false
      if !firstUse then []
      else [⟨"cooldown_drift", "Major cooldown used late", .warn, ctx.now_ms⟩]
  | _ => []

/-- Rule interrupt_success: the coached player landed an interrupt. -/
def interrupt_success_eval (e : LogEvent) (ctx : RuleContext) : List AdviceEvent :=
  match e with
  | .spellInterrupted _ srcGuid _ intId _ =>
    if ctx.state.player_guid ≠ some srcGuid then []
    else if ctx.intensity < 2 then []
    else [⟨"interrupt_success_" ++ toString intId, "Interrupt!", .good, ctx.now_ms⟩]
  | _ => []

/-- Rule interrupt_miss: an enemy completed a cast the player has interrupted
    before. -/
def interrupt_miss_eval (e : LogEvent) (ctx : RuleContext) : List AdviceEvent :=
  match e with
  | .spellCastSuccess _ srcGuid _ spellId _ =>
    if ctx.state.player_guid = some srcGuid then []
    else if !(startsWithStr srcGuid "Creature") && !(startsWithStr srcGuid "Vehicle") then []
    else if !(ctx.state.interrupts.interruptible_spells spellId) then []
    else if !ctx.state.in_combat then []
    else if ctx.intensity < 3 then []
    else [⟨"interrupt_miss_" ++ toString spellId, "Missed Interrupt", .bad, ctx.now_ms⟩]
  | _ => []

/-- Rule defensive_timing: active mitigation used under damage pressure. -/
def defensive_timing_eval (e : LogEvent) (ctx : RuleContext) (amIds : List Nat) :
    List AdviceEvent :=
  if amIds = [] then []
  else
    match e with
    | .spellCastSuccess _ srcGuid _ spellId _ =>
      if ctx.state.player_guid ≠ some srcGuid then []
      else if spellId ∉ amIds then []
      else if ctx.intensity < 2 then []
      else if ctx.state.damage_taken.recent_damage ctx.now_ms 5000 < 20000 then []
      else [⟨"am_under_pressure_" ++ toString spellId, "Good AM Timing", .good, ctx.now_ms⟩]
    | _ => []

/-- Gate for the coached-player rule pass. -/
def is_coached_event (e : LogEvent) (guid : Option String) : Bool :=
  match e with
  | .spellCastSuccess _ srcGuid _ _ _ => guid = some srcGuid
  | .spellDamage _ _ _ destGuid _ _ _ _ => guid = some destGuid
  | .spellHeal _ srcGuid _ _ _ _ => guid = some srcGuid
  | .swingDamage _ _ destGuid _ => guid = some destGuid
  | .spellInterrupted _ srcGuid _ _ _ => guid = some srcGuid
  | .unitDied _ _ _ => true
  | .encounterStart _ _ _ _ _ => true
  | .encounterEnd _ _ _ _ => true
  | .spellCastFailed _ srcGuid _ _ _ _ => guid = some srcGuid
  | .spellCastStart _ srcGuid _ _ _ => guid = some srcGuid

/-- Lowercase one ASCII letter. -/
def asciiLowerChar (c : Char) : Char :=
  if 'A' ≤ c ∧ c ≤ 'Z' then Char.ofNat (c.toNat + 32) else c

/-- Model of Rust to_ascii_lowercase on strings. -/
def asciiLowerStr (s : String) : String := String.mk (s.data.map asciiLowerChar)

/-- Character name before the first dash of a source name. -/
def extract_char_name (s : String) : String :=
  String.mk (s.data.takeWhile (fun c => c ≠ '-'))

/-- Engine task state: combat state plus the dedup map and configuration. -/
structure EngineState where
  combat : CombatState
  advice_last_ms : String → Option Nat
  effective_major_cds : List Nat
  effective_am_spells : List Nat
  intensity : Nat
  focus_name : String
  player_name_cache : String → Option String

/-- Passive name-to-guid caching while the player is unidentified. -/
def applyCache (s : EngineState) (e : LogEvent) : EngineState :=
  if s.combat.player_guid = none then
    match e with
    | .spellCastSuccess _ srcGuid srcName _ _ =>
      if startsWithStr srcGuid "Player-" then
        let key := asciiLowerStr (extract_char_name srcName)
        match s.player_name_cache key with
        | some _ => s
        | none =>
          { s with player_name_cache := fun x => if x = key then some srcGuid else s.player_name_cache x }
      else s
    | _ => s
  else s

/-- GUID inference from the configured focus name while unidentified. -/
def applyInfer (s : EngineState) (e : LogEvent) : EngineState :=
  if s.combat.player_guid = none ∧ s.focus_name ≠ "" then
    match e with
    | .spellCastSuccess _ srcGuid srcName _ _ =>
      if asciiLowerStr (extract_char_name srcName) = asciiLowerStr s.focus_name then
        { s with combat := { s.combat with player_guid := some srcGuid } }
      else s
    | _ => s
  else s

/-- Engine state after the two identification steps of the hot loop. -/
def engineInfer (s : EngineState) (e : LogEvent) : EngineState :=
  applyInfer (applyCache s e) e

/-- Combat state after processing one event. -/
def engineCombat (s : EngineState) (e : LogEvent) : CombatState :=
  update_state (engineInfer s e).combat e e.timestamp_ms

/-- Whether processing this event closes the current pull. -/
def stepClears (s : EngineState) (e : LogEvent) : Bool :=
  s.combat.in_combat && !(engineCombat s e).in_combat

/-- Candidate advice of both rule passes, in evaluation order. -/
def engineCandidates (s : EngineState) (e : LogEvent) : List AdviceEvent :=
  let c := engineCombat s e
  let si := engineInfer s e
  let ctx : RuleContext := ⟨c, si.intensity, e.timestamp_ms⟩
  (if c.in_combat then interrupt_miss_eval e ctx else []) ++
    (if is_coached_event e c.player_guid then
      avoidable_repeat_eval e ctx ++ gcd_gap_eval e ctx ++
        cooldown_drift_eval e ctx si.effective_major_cds ++
        interrupt_success_eval e ctx ++
        defensive_timing_eval e ctx si.effective_am_spells
    else [])

/-- Dedup map fed to the candidate loop: cleared when the event closed a
    pull, so every rule can fire fresh next pull. -/
def enginePreMap (s : EngineState) (e : LogEvent) : String → Option Nat :=
  if stepClears s e then (fun _ => none) else s.advice_last_ms

/-- One iteration of the engine hot loop on a log event: identification,
    state update, pull-boundary dedup clear, rule evaluation, dedup and
    firing.  Returns the new engine state and the fired advice. -/
def engineStep (s : EngineState) (e : LogEvent) : EngineState × List AdviceEvent :=
  let r := dedupRun (enginePreMap s e) e.timestamp_ms (engineCandidates s e)
  ({ engineInfer s e with combat := engineCombat s e, advice_last_ms := r.1 }, r.2)

/-- Run the engine over a list of events. -/
def engineRunFrom (s : EngineState) : List LogEvent → EngineState
  | [] => s
  | e :: es => engineRunFrom (engineStep s e).1 es

/-- Fired advice of each event of a run, in order. -/
def engineFirings (s : EngineState) : List LogEvent → List (List AdviceEvent)
  | [] => []
  | e :: es => (engineStep s e).2 :: engineFirings (engineStep s e).1 es

/-- True when no event of the run closes a pull. -/
def runNoClear (s : EngineState) : List LogEvent → Bool
  | [] => true
  | e :: es => !stepClears s e && runNoClear (engineStep s e).1 es

/-! ## Run helpers and spec-side definitions -/

/-- Fresh combat state with a known coached GUID (the engine owns the GUID
    and installs it from identity updates or inference). -/
def initState (g : Option String) : CombatState :=
  { CombatState.new with player_guid := g }

/-- Fold the state machine over events, each processed at its timestamp. -/
def runFrom (s : CombatState) : List LogEvent → CombatState
  | [] => s
  | e :: es => runFrom (update_state s e e.timestamp_ms) es

/-- Events that can open a pull. -/
def isOpeningEvent : LogEvent → Bool
  | .spellCastSuccess _ _ _ _ _ => true
  | .encounterStart _ _ _ _ _ => true
  | _ => false

/-- Events that can close a pull. -/
def isClosingEvent : LogEvent → Bool
  | .unitDied _ _ _ => true
  | .encounterEnd _ _ _ _ => true
  | _ => false

/-- Modelled from the spec: the timestamp of the most recent SpellCastSuccess
    by the coached player in the current pull, none before the first coached
    cast of the pull.  The pull segmentation is the state machine itself:
    the value resets whenever an opening event opens a new pull. -/
def specPrevStep (g : String) (s : CombatState) (prev : Option Nat) (e : LogEvent) :
    Option Nat :=
  let p1 := if !s.in_combat && isOpeningEvent e then none else prev
  match e with
  | .spellCastSuccess t srcGuid _ _ _ => if srcGuid = g then some t else p1
  | _ => p1

/-- Run the state machine together with the spec-side previous-coached-cast
    value. -/
def runWithPrev (g : String) : CombatState → Option Nat → List LogEvent → CombatState × Option Nat
  | s, prev, [] => (s, prev)
  | s, prev, e :: es =>
    runWithPrev g (update_state s e e.timestamp_ms) (specPrevStep g s prev e) es

/-- Timestamp of the previous coached cast of the current pull after a trace. -/
def specPrevCoachedCast (g : String) (es : List LogEvent) : Option Nat :=
  (runWithPrev g (initState (some g)) none es).2

/-- Modelled from the spec: count of SpellDamage events this pull whose
    destination is the coached player, per spell id; resets when a pull
    opens. -/
def specHitStep (g : String) (s : CombatState) (cnt : Nat → Nat) (e : LogEvent) :
    Nat → Nat :=
  let c1 := if !s.in_combat && isOpeningEvent e then (fun _ => 0) else cnt
  match e with
  | .spellDamage _ _ _ destGuid _ spellId _ _ =>
    if destGuid = g then (fun x => if x = spellId then c1 x + 1 else c1 x) else c1
  | _ => c1

/-- Run the state machine together with the spec-side hit counter. -/
def runWithHits (g : String) : CombatState → (Nat → Nat) → List LogEvent → CombatState × (Nat → Nat)
  | s, cnt, [] => (s, cnt)
  | s, cnt, e :: es =>
    runWithHits g (update_state s e e.timestamp_ms) (specHitStep g s cnt e) es

/-- Per-spell count of coached SpellDamage hits of the current pull after a
    trace. -/
def specHitsThisPull (g : String) (es : List LogEvent) : Nat → Nat :=
  (runWithHits g (initState (some g)) (fun _ => 0) es).2

/-- The claim-side fractional normalisation formula: multiply by a power of
    ten up to length 3, divide by a power of ten from length 3 on. -/
def spec_frac_ms (len f : Nat) : Nat :=
  if len ≤ 3 then f * 10 ^ (3 - len) else f / 10 ^ (len - 3)

/-! ## Concrete demonstration inputs -/

/-- Engine state with a known coached GUID and default configuration. -/
def mkEngine (g : Option String) (cds : List Nat) (inten : Nat) : EngineState where
  combat := initState g
  advice_last_ms := fun _ => none
  effective_major_cds := cds
  effective_am_spells := []
  intensity := inten
  focus_name := ""
  player_name_cache := fun _ => none

/-- Mid-pull engine state in which the coached player P was already hit once
    by spell 7 (pull opened at 0). -/
def demoEngineC2 : EngineState :=
  { mkEngine (some "P") [] 1 with
    combat := { initState (some "P") with
      in_combat := true
      current_pull := some ⟨1, 0, none, none⟩
      avoidable := ⟨fun x => if x = 7 then 1 else 0, fun _ => []⟩ } }

/-- Spell 7 damage on the coached player P at a given time. -/
def demoDamage (t : Nat) : LogEvent := .spellDamage t "M" "Mob" "P" "Guy" 7 "Fire" 100

/-- Encounter start event opening a pull. -/
def demoEncStart (t : Nat) : LogEvent := .encounterStart t 1 "Z" 14 5

/-- A coached cast of a given spell at a given time. -/
def demoCast (t id : Nat) : LogEvent := .spellCastSuccess t "P" "P" id "X"

/-- In-combat state without an active encounter, pull open since 0. -/
def demoMidPull : CombatState :=
  { initState (some "P") with in_combat := true, current_pull := some ⟨1, 0, none, none⟩ }

/-- State that already knows spell 42 is interruptible. -/
def demoIntState : CombatState :=
  { initState (some "P") with interrupts := ⟨fun x => if x = 42 then true else false⟩ }

/-- Out-of-combat state with stale avoidable counts from earlier activity. -/
def demoC5State : CombatState :=
  { initState (some "P") with avoidable := ⟨fun x => if x = 7 then 3 else 0, fun _ => []⟩ }

end CombatCoaching

namespace CombatCoaching

/-! ## Advice-cooldown lemmas (dedup loop) -/

theorem advice_cooldown_pos (sv : Severity) : 0 < advice_cooldown_ms sv := by
  cases sv <;> simp [advice_cooldown_ms]

theorem dedupRun_fire_le (cs : List AdviceEvent) :
    ∀ (m : String → Option Nat) (now : Nat) (a : AdviceEvent),
      a ∈ (dedupRun m now cs).2 →
      advice_cooldown_ms a.severity ≤ now - ((m a.key).getD 0) := by
  induction cs with
  | nil => intro m now a h; simp [dedupRun] at h
  | cons b rest ih =>
    intro m now a h
    by_cases hf : can_fire m b.key b.severity now = true
    · simp only [dedupRun, hf, if_true, List.mem_cons] at h
      rcases h with h | h
      · subst h
        simpa [can_fire] using hf
      · have h2 := ih (mark_fired m b.key now) now a h
        by_cases hk : a.key = b.key
        · rw [hk] at h2
          have hx : (mark_fired m b.key now b.key).getD 0 = now := by
            simp [mark_fired]
          rw [hx, Nat.sub_self, Nat.le_zero] at h2
          exact absurd h2 (Nat.pos_iff_ne_zero.mp (advice_cooldown_pos a.severity))
        · simpa [mark_fired, hk] using h2
    · simp only [dedupRun, hf, if_false] at h
      exact ih m now a h

theorem dedupRun_preserve (cs : List AdviceEvent) :
    ∀ (m : String → Option Nat) (now : Nat) (k : String),
      m k = some now → (dedupRun m now cs).1 k = some now := by
  induction cs with
  | nil => intro m now k h; simpa [dedupRun] using h
  | cons b rest ih =>
    intro m now k h
    by_cases hf : can_fire m b.key b.severity now = true
    · simp only [dedupRun, hf, if_true]
      apply ih
      by_cases hk : k = b.key <;> simp [mark_fired, hk, h]
    · simp only [dedupRun, hf, if_false]
      exact ih m now k h

theorem dedupRun_fire_mark (cs : List AdviceEvent) :
    ∀ (m : String → Option Nat) (now : Nat) (a : AdviceEvent),
      a ∈ (dedupRun m now cs).2 → (dedupRun m now cs).1 a.key = some now := by
  induction cs with
  | nil => intro m now a h; simp [dedupRun] at h
  | cons b rest ih =>
    intro m now a h
    by_cases hf : can_fire m b.key b.severity now = true
    · simp only [dedupRun, hf, if_true, List.mem_cons] at h ⊢
      rcases h with h | h
      · subst h
        exact dedupRun_preserve rest _ now a.key (by simp [mark_fired])
      · exact ih _ now a h
    · simp only [dedupRun, hf, if_false] at h ⊢
      exact ih m now a h

theorem dedupRun_mono (cs : List AdviceEvent) :
    ∀ (m : String → Option Nat) (now : Nat) (k : String),
      (dedupRun m now cs).1 k = m k ∨
        ((dedupRun m now cs).1 k = some now ∧ (m k).getD 0 < now) := by
  induction cs with
  | nil => intro m now k; simp [dedupRun]
  | cons b rest ih =>
    intro m now k
    by_cases hf : can_fire m b.key b.severity now = true
    · simp only [dedupRun, hf, if_true]
      by_cases hk : k = b.key
      · have hlt : (m k).getD 0 < now := by
          simp only [can_fire, decide_eq_true_eq] at hf
          have h1 : 0 < now - (m b.key).getD 0 :=
            Nat.lt_of_lt_of_le (advice_cooldown_pos b.severity) hf
          rw [hk]
          omega
        rcases ih (mark_fired m b.key now) now k with h | h
        · rw [h]
          right
          exact ⟨by simp [mark_fired, hk], hlt⟩
        · right
          exact ⟨h.1, hlt⟩
      · rcases ih (mark_fired m b.key now) now k with h | h
        · rw [h]
          left
          simp [mark_fired, hk]
        · right
          refine ⟨h.1, ?_⟩
          have : (mark_fired m b.key now k).getD 0 = (m k).getD 0 := by
            simp [mark_fired, hk]
          omega
    · simp only [dedupRun, hf, if_false]
      exact ih m now k

theorem dedupRun_no_early_fire (cs : List AdviceEvent) :
    ∀ (m : String → Option Nat) (now : Nat) (k : String) (sv : Severity),
      (m k = none ∨ m k = some now) → now < advice_cooldown_ms sv →
      ∀ a ∈ (dedupRun m now cs).2, ¬(a.key = k ∧ a.severity = sv) := by
  induction cs with
  | nil => intro m now k sv _ _ a h; simp [dedupRun] at h
  | cons b rest ih =>
    intro m now k sv hm hlt a h
    by_cases hf : can_fire m b.key b.severity now = true
    · simp only [dedupRun, hf, if_true, List.mem_cons] at h
      rcases h with h | h
      · subst h
        rintro ⟨hk, hsv⟩
        simp only [can_fire, hk, hsv, decide_eq_true_eq] at hf
        rcases hm with hm | hm
        · rw [hm] at hf
          simp only [Option.getD_none, Nat.sub_zero] at hf
          omega
        · rw [hm] at hf
          simp only [Option.getD_some, Nat.sub_self, Nat.le_zero] at hf
          exact absurd hf (Nat.pos_iff_ne_zero.mp (advice_cooldown_pos sv))
      · refine ih (mark_fired m b.key now) now k sv ?_ hlt a h
        by_cases hk : k = b.key
        · right; simp [mark_fired, hk]
        · rcases hm with hm | hm
          · left; simpa [mark_fired, hk] using hm
          · right; simpa [mark_fired, hk] using hm
    · simp only [dedupRun, hf, if_false] at h
      exact ih m now k sv hm hlt a h

/-! ## Engine-level dedup lemmas -/

theorem engineStep_snd (s : EngineState) (e : LogEvent) :
    (engineStep s e).2 = (dedupRun (enginePreMap s e) e.timestamp_ms (engineCandidates s e)).2 :=
  rfl

theorem engineStep_advice_map (s : EngineState) (e : LogEvent) :
    (engineStep s e).1.advice_last_ms =
      (dedupRun (enginePreMap s e) e.timestamp_ms (engineCandidates s e)).1 :=
  rfl

theorem engineStep_fired_le (s : EngineState) (e : LogEvent) (a : AdviceEvent)
    (h : a ∈ (engineStep s e).2) :
    advice_cooldown_ms a.severity ≤ e.timestamp_ms - ((enginePreMap s e a.key).getD 0) := by
  rw [engineStep_snd] at h
  exact dedupRun_fire_le _ _ _ a h

theorem engineStep_fired_mark (s : EngineState) (e : LogEvent) (a : AdviceEvent)
    (h : a ∈ (engineStep s e).2) :
    (engineStep s e).1.advice_last_ms a.key = some e.timestamp_ms := by
  rw [engineStep_snd] at h
  rw [engineStep_advice_map]
  exact dedupRun_fire_mark _ _ _ a h

theorem engineStep_last_mono (s : EngineState) (e : LogEvent) (k : String)
    (h : stepClears s e = false) :
    (s.advice_last_ms k).getD 0 ≤ ((engineStep s e).1.advice_last_ms k).getD 0 := by
  rw [engineStep_advice_map]
  have hpre : enginePreMap s e = s.advice_last_ms := by
    simp [enginePreMap, h]
  rcases dedupRun_mono (engineCandidates s e) (enginePreMap s e) e.timestamp_ms k with h2 | h2
  · rw [h2, hpre]
  · rw [h2.1]
    have := h2.2
    rw [hpre] at this
    simp only [Option.getD_some]
    omega

theorem engineRun_last_mono (es : List LogEvent) :
    ∀ (s : EngineState) (k : String), runNoClear s es = true →
      (s.advice_last_ms k).getD 0 ≤ ((engineRunFrom s es).advice_last_ms k).getD 0 := by
  induction es with
  | nil => intro s k _; simp [engineRunFrom]
  | cons e rest ih =>
    intro s k h
    simp only [runNoClear, Bool.and_eq_true, Bool.not_eq_true'] at h
    calc (s.advice_last_ms k).getD 0
        ≤ ((engineStep s e).1.advice_last_ms k).getD 0 := engineStep_last_mono s e k h.1
      _ ≤ ((engineRunFrom (engineStep s e).1 rest).advice_last_ms k).getD 0 :=
          ih (engineStep s e).1 k h.2

/-- C2: dedup cooldown law.  First part: whenever advice a fires while
    processing event e1 and advice b with the same key fires while processing
    a later event e2, with no pull close in between (the same pull), then at
    least the cooldown of the severity of b separates the two timestamps.
    Second part: when an event closes a pull the dedup map is cleared, so
    after that event every key is either absent or holds that same event's
    timestamp — the constraint does not carry across pull boundaries. -/
theorem C2_advice_dedup_cooldown :
    (∀ (s0 : EngineState) (e1 e2 : LogEvent) (es : List LogEvent) (a b : AdviceEvent),
      a ∈ (engineStep s0 e1).2 →
      runNoClear (engineStep s0 e1).1 es = true →
      stepClears (engineRunFrom (engineStep s0 e1).1 es) e2 = false →
      b ∈ (engineStep (engineRunFrom (engineStep s0 e1).1 es) e2).2 →
      b.key = a.key →
      advice_cooldown_ms b.severity ≤ e2.timestamp_ms - e1.timestamp_ms) ∧
    (∀ (s : EngineState) (e : LogEvent) (k : String),
      stepClears s e = true →
      (engineStep s e).1.advice_last_ms k = none ∨
        (engineStep s e).1.advice_last_ms k = some e.timestamp_ms) := by
  constructor
  · intro s0 e1 e2 es a b hfire1 hnc hclr2 hfire2 hkey
    set s1 := (engineStep s0 e1).1 with hs1
    set s2 := engineRunFrom s1 es with hs2
    have h1 : s1.advice_last_ms a.key = some e1.timestamp_ms :=
      engineStep_fired_mark s0 e1 a hfire1
    have h2 : e1.timestamp_ms ≤ (s2.advice_last_ms a.key).getD 0 := by
      have := engineRun_last_mono es s1 a.key hnc
      rw [h1] at this
      simpa using this
    have h3 : advice_cooldown_ms b.severity ≤
        e2.timestamp_ms - ((enginePreMap s2 e2 b.key).getD 0) :=
      engineStep_fired_le s2 e2 b hfire2
    have hpre : enginePreMap s2 e2 = s2.advice_last_ms := by
      simp [enginePreMap, hclr2]
    rw [hpre, hkey] at h3
    have h4 : e2.timestamp_ms - ((s2.advice_last_ms a.key).getD 0) ≤
        e2.timestamp_ms - e1.timestamp_ms := Nat.sub_le_sub_left h2 _
    exact le_trans h3 h4
  · intro s e k hclr
    rw [engineStep_advice_map]
    have hpre : enginePreMap s e = fun _ => none := by
      simp [enginePreMap, hclr]
    rcases dedupRun_mono (engineCandidates s e) (enginePreMap s e) e.timestamp_ms k with h | h
    · left; rw [h, hpre]
    · right; exact h.1

theorem C2_witness :
    advice_cooldown_ms Severity.bad ≤
      (demoDamage 17500).timestamp_ms - (demoDamage 9500).timestamp_ms := by
  exact C2_advice_dedup_cooldown.1 demoEngineC2 (demoDamage 9500) (demoDamage 17500) []
    ⟨"avoidable_repeat", "Avoidable damage repeating", .bad, 9500⟩
    ⟨"avoidable_repeat", "Avoidable damage repeating", .bad, 17500⟩
    (by decide) (by decide) (by decide) (by decide) rfl

/-- C10: the dedup check treats a key that never fired as last fired at
    time 0.  First part: for an absent key, can_fire is false whenever now is
    below the cooldown of the severity.  Second part: consequently a
    candidate advice whose event timestamp is below the cooldown of its
    severity is never fired when its key is absent from the dedup map. -/
theorem C10_first_firing_suppression :
    (∀ (m : String → Option Nat) (k : String) (sv : Severity) (now : Nat),
      m k = none → now < advice_cooldown_ms sv → can_fire m k sv now = false) ∧
    (∀ (s : EngineState) (e : LogEvent) (a : AdviceEvent),
      s.advice_last_ms a.key = none →
      e.timestamp_ms < advice_cooldown_ms a.severity →
      a ∉ (engineStep s e).2) := by
  constructor
  · intro m k sv now hm hlt
    simp only [can_fire, hm, Option.getD_none, Nat.sub_zero, decide_eq_false_iff_not]
    omega
  · intro s e a hm hlt hmem
    rw [engineStep_snd] at hmem
    have hpre : enginePreMap s e a.key = none ∨
        enginePreMap s e a.key = some e.timestamp_ms := by
      by_cases hc : stepClears s e = true
      · left; simp [enginePreMap, hc]
      · left
        simp only [Bool.not_eq_true] at hc
        simpa [enginePreMap, hc] using hm
    exact dedupRun_no_early_fire (engineCandidates s e) (enginePreMap s e)
      e.timestamp_ms a.key a.severity hpre hlt a hmem ⟨rfl, rfl⟩

theorem C10_witness :
    can_fire (fun _ => none) "avoidable_repeat" Severity.bad 5000 = false :=
  C10_first_firing_suppression.1 (fun _ => none) "avoidable_repeat" Severity.bad 5000
    rfl (by decide)

/-! ## Pull state machine (C1) -/

theorem update_state_pull_iff (s : CombatState) (e : LogEvent) (t : Nat)
    (h : s.current_pull.isSome = s.in_combat) :
    (update_state s e t).current_pull.isSome = (update_state s e t).in_combat := by
  cases e <;>
    simp only [update_state] <;>
    (try split_ifs) <;>
    simp_all [CombatState.start_pull, CombatState.end_pull] <;>
    (try split) <;>
    simp_all

theorem runFrom_pull_invariant (es : List LogEvent) :
    ∀ s : CombatState, s.current_pull.isSome = s.in_combat →
      (runFrom s es).current_pull.isSome = (runFrom s es).in_combat := by
  induction es with
  | nil => intro s h; exact h
  | cons e rest ih => intro s h; exact ih _ (update_state_pull_iff s e e.timestamp_ms h)

/-- C1: after processing any sequence of events from the fresh state, a pull
    is open exactly when in_combat holds; an opening event (SpellCastSuccess
    or EncounterStart) processed while in combat leaves the current pull
    unchanged; a closing event (UnitDied or EncounterEnd) processed while no
    pull is open leaves the pull history unchanged. -/
theorem C1_pull_state_machine :
    (∀ (g : Option String) (es : List LogEvent),
      (runFrom (initState g) es).current_pull.isSome = (runFrom (initState g) es).in_combat) ∧
    (∀ (s : CombatState) (e : LogEvent) (t : Nat),
      s.in_combat = true → isOpeningEvent e = true →
      (update_state s e t).current_pull = s.current_pull) ∧
    (∀ (s : CombatState) (e : LogEvent) (t : Nat),
      s.current_pull = none → isClosingEvent e = true →
      (update_state s e t).pull_history = s.pull_history) := by
  refine ⟨fun g es => runFrom_pull_invariant es _ rfl, ?_, ?_⟩
  · intro s e t hc ho
    cases e <;> simp [isOpeningEvent] at ho <;>
      simp only [update_state, hc] <;> (try split_ifs) <;> simp_all
  · intro s e t hp hcl
    cases e <;> simp [isClosingEvent] at hcl <;>
      simp only [update_state] <;> (try split_ifs) <;>
      simp_all [CombatState.end_pull]

theorem C1_witness :
    ((runFrom (initState none) [demoEncStart 0, demoCast 1000 5]).current_pull.isSome
        = (runFrom (initState none) [demoEncStart 0, demoCast 1000 5]).in_combat) ∧
    (update_state demoMidPull (demoCast 2000 5) 2000).current_pull = demoMidPull.current_pull ∧
    (update_state (initState (some "P")) (.unitDied 3000 "Creature-1" "B") 3000).pull_history
        = (initState (some "P")).pull_history :=
  ⟨C1_pull_state_machine.1 none _,
   C1_pull_state_machine.2.1 demoMidPull _ 2000 rfl (by decide),
   C1_pull_state_machine.2.2 (initState (some "P")) _ 3000 rfl (by decide)⟩

/-! ## Interrupt-set monotonicity (C6) -/

/-- C6: every state-machine transition only adds to the learned
    interruptible-spell set, and both starting and ending a pull preserve the
    set exactly. -/
theorem C6_interrupts_monotone :
    (∀ (s : CombatState) (e : LogEvent) (t id : Nat),
      s.interrupts.interruptible_spells id = true →
      (update_state s e t).interrupts.interruptible_spells id = true) ∧
    (∀ (s : CombatState) (t : Nat), (s.start_pull t).interrupts = s.interrupts) ∧
    (∀ (s : CombatState) (t : Nat) (o : PullOutcome),
      (s.end_pull t o).interrupts = s.interrupts) := by
  refine ⟨?_, ?_, ?_⟩
  · intro s e t id h
    cases e <;>
      simp only [update_state] <;>
      (try split_ifs) <;>
      simp_all [CombatState.start_pull, CombatState.end_pull,
        InterruptTracker.reset_per_pull, InterruptTracker.record_interrupt] <;>
      (try split) <;> simp_all
  · intro s t; rfl
  · intro s t o
    cases hp : s.current_pull <;> simp [CombatState.end_pull, hp]

theorem C6_witness :
    (update_state demoIntState (demoCast 1000 5) 1000).interrupts.interruptible_spells 42 = true :=
  C6_interrupts_monotone.1 demoIntState (demoCast 1000 5) 1000 42 (by decide)

/-! ## UnitDied pull-end fallback (C7) -/

/-- C7 (amended): a UnitDied event closes the current pull exactly when in
    combat with no active encounter, with outcome kill when dest_guid starts
    with Creature (without requiring the trailing dash) and wipe otherwise;
    in every other situation the state is unchanged (or only in_combat is
    dropped when, degenerately, no pull is open while in combat). -/
theorem C7_unitDied_fallback :
    (∀ (s : CombatState) (t : Nat) (dg dn : String) (p : Pull),
      s.in_combat = true → s.encounter_name = none → s.current_pull = some p →
      (update_state s (.unitDied t dg dn) t).current_pull = none ∧
      (update_state s (.unitDied t dg dn) t).in_combat = false ∧
      (update_state s (.unitDied t dg dn) t).pull_history =
        s.pull_history ++ [⟨p.pull_number, p.start_ms, some t,
          some (if startsWithStr dg "Creature" then .kill else .wipe)⟩]) ∧
    (∀ (s : CombatState) (t : Nat) (dg dn : String),
      ¬(s.in_combat = true ∧ s.encounter_name = none) →
      update_state s (.unitDied t dg dn) t = s) ∧
    (∀ (s : CombatState) (t : Nat) (dg dn : String),
      s.in_combat = true → s.encounter_name = none → s.current_pull = none →
      update_state s (.unitDied t dg dn) t = { s with in_combat := false }) := by
  refine ⟨?_, ?_, ?_⟩
  · intro s t dg dn p hin henc hp
    simp [update_state, hin, henc, CombatState.end_pull, hp]
  · intro s t dg dn hneg
    simp only [update_state]
    rw [if_neg]
    intro hcon
    exact hneg ⟨by simpa using hcon.1, hcon.2⟩
  · intro s t dg dn hin henc hp
    simp [update_state, hin, henc, CombatState.end_pull, hp]

/-- C7 counterexample: with an open pull, no active encounter, and a dying
    unit whose guid "CreatureX-1" does not carry the "Creature-" prefix (no
    dash), the code still closes the pull with outcome kill, while the claim
    as stated prescribes wipe for a guid without the "Creature-" prefix. -/
theorem C7_counterexample :
    ((update_state demoMidPull (.unitDied 5000 "CreatureX-1" "X") 5000).pull_history.map
        (fun p => p.outcome)) = [some PullOutcome.kill] ∧
    startsWithStr "CreatureX-1" "Creature-" = false :=
  ⟨by decide, by decide⟩

theorem C7_witness :
    (update_state demoMidPull (.unitDied 5000 "Creature-0-1" "B") 5000).pull_history =
      demoMidPull.pull_history ++ [⟨1, 0, some 5000, some PullOutcome.kill⟩] := by
  have h := (C7_unitDied_fallback.1 demoMidPull 5000 "Creature-0-1" "B"
    ⟨1, 0, none, none⟩ rfl rfl rfl).2.2
  exact h.trans (by decide)

/-! ## Cooldown-drift rule behaviour (C3) -/

/-- C3 (divergence demonstration): the cooldown_drift first-use test
    (last_used_ms of the spell equal to now) is satisfied on every qualifying
    cast because update_state records the cast before the rules run.  In the
    spec scenario S3 (pull opened at 0, coached casts of major-cd spell 100
    at 9000 and 20000) the single advice is emitted at 20000, on the second
    cast, not at 9000; and with the same relative timing later in the day
    (pull at 100000, casts at 109000 and 122000) the rule fires on both
    casts of the same spell within one pull. -/
theorem C3_cooldown_drift_refired :
    engineFirings (mkEngine (some "P") [100] 1)
        [demoEncStart 0, demoCast 9000 100, demoCast 20000 100] =
      [[], [], [⟨"cooldown_drift", "Major cooldown used late", .warn, 20000⟩]] ∧
    engineFirings (mkEngine (some "P") [100] 1)
        [demoEncStart 100000, demoCast 109000 100, demoCast 122000 100] =
      [[], [⟨"cooldown_drift", "Major cooldown used late", .warn, 109000⟩],
        [⟨"cooldown_drift", "Major cooldown used late", .warn, 122000⟩]] :=
  ⟨by decide, by decide⟩

/-! ## GCD gap law (C4) and avoidable-hit counting law (C5) -/

theorem GcdTracker.record_cast_last (gg : GcdTracker) (ts : Nat) :
    (gg.record_cast ts).last_cast_ms = some ts := by
  cases h : gg.last_cast_ms <;> simp [GcdTracker.record_cast, h]

theorem GcdTracker.record_cast_gap (gg : GcdTracker) (ts : Nat) :
    (gg.record_cast ts).current_gap_ms =
      match gg.last_cast_ms with
      | some l => ts - l
      | none => gg.current_gap_ms := by
  cases h : gg.last_cast_ms <;> simp [GcdTracker.record_cast, h]

theorem runWithPrev_fst (g : String) (es : List LogEvent) :
    ∀ (s : CombatState) (prev : Option Nat), (runWithPrev g s prev es).1 = runFrom s es := by
  induction es with
  | nil => intro s prev; rfl
  | cons e rest ih => intro s prev; exact ih _ _

theorem specPrev_step (g : String) (s : CombatState) (prev : Option Nat) (e : LogEvent)
    (h1 : s.player_guid = some g) (h2 : s.gcd.last_cast_ms = prev)
    (h3 : prev = none → s.gcd.current_gap_ms = 0) :
    (update_state s e e.timestamp_ms).player_guid = some g ∧
    (update_state s e e.timestamp_ms).gcd.last_cast_ms = specPrevStep g s prev e ∧
    (specPrevStep g s prev e = none →
      (update_state s e e.timestamp_ms).gcd.current_gap_ms = 0) := by
  cases e <;>
    simp only [update_state, specPrevStep, LogEvent.timestamp_ms, isOpeningEvent,
      Bool.and_false, Bool.and_true, Bool.not_eq_true'] <;>
    (try split_ifs) <;>
    simp_all [CombatState.start_pull, CombatState.end_pull,
      GcdTracker.record_cast_last, GcdTracker.record_cast_gap] <;>
    (try split) <;>
    simp_all

theorem runWithPrev_inv (g : String) (es : List LogEvent) :
    ∀ (s : CombatState) (prev : Option Nat),
      s.player_guid = some g →
      s.gcd.last_cast_ms = prev →
      (prev = none → s.gcd.current_gap_ms = 0) →
      (runWithPrev g s prev es).1.player_guid = some g ∧
      (runWithPrev g s prev es).1.gcd.last_cast_ms = (runWithPrev g s prev es).2 ∧
      ((runWithPrev g s prev es).2 = none →
        (runWithPrev g s prev es).1.gcd.current_gap_ms = 0) := by
  induction es with
  | nil => intro s prev h1 h2 h3; exact ⟨h1, h2, h3⟩
  | cons e rest ih =>
    intro s prev h1 h2 h3
    have hstep := specPrev_step g s prev e h1 h2 h3
    exact ih _ _ hstep.1 hstep.2.1 hstep.2.2

/-- C4: after any trace, processing one more SpellCastSuccess by the coached
    player while in combat sets gcd.current_gap_ms to the event timestamp
    minus the timestamp of the previous coached cast of this pull, or leaves
    it 0 when this is the first coached cast of the pull. -/
theorem C4_gcd_gap_law (g : String) (es : List LogEvent) (t : Nat)
    (srcName spellName : String) (spellId : Nat)
    (hin : (runFrom (initState (some g)) es).in_combat = true) :
    (update_state (runFrom (initState (some g)) es)
        (.spellCastSuccess t g srcName spellId spellName) t).gcd.current_gap_ms =
      match specPrevCoachedCast g es with
      | some p => t - p
      | none => 0 := by
  have hfst := runWithPrev_fst g es (initState (some g)) none
  have hinv := runWithPrev_inv g es (initState (some g)) none rfl rfl (fun _ => rfl)
  rw [hfst] at hinv
  obtain ⟨hg, hlast, hgap⟩ := hinv
  simp only [update_state, hin, if_true, hg, if_pos]
  simp only [GcdTracker.record_cast_gap, hlast]
  cases hp : specPrevCoachedCast g es with
  | some p => simp [specPrevCoachedCast] at hp; simp [hp]
  | none =>
    simp only [specPrevCoachedCast] at hp
    simp only [hp]
    exact hgap hp

theorem C4_witness :
    (update_state (runFrom (initState (some "P")) [demoEncStart 0, demoCast 1000 5])
        (.spellCastSuccess 3500 "P" "P" 5 "X") 3500).gcd.current_gap_ms = 2500 := by
  have h := C4_gcd_gap_law "P" [demoEncStart 0, demoCast 1000 5] 3500 "P" "X" 5 (by decide)
  exact h.trans (by decide)

theorem runWithHits_fst (g : String) (es : List LogEvent) :
    ∀ (s : CombatState) (cnt : Nat → Nat), (runWithHits g s cnt es).1 = runFrom s es := by
  induction es with
  | nil => intro s cnt; rfl
  | cons e rest ih => intro s cnt; exact ih _ _

theorem specHits_step (g : String) (s : CombatState) (cnt : Nat → Nat) (e : LogEvent)
    (h1 : s.player_guid = some g) (h2 : ∀ x, s.avoidable.hit_counts x = cnt x) :
    (update_state s e e.timestamp_ms).player_guid = some g ∧
    (∀ x, (update_state s e e.timestamp_ms).avoidable.hit_counts x = specHitStep g s cnt e x) := by
  cases e <;>
    simp only [update_state, specHitStep, LogEvent.timestamp_ms, isOpeningEvent,
      Bool.and_false, Bool.and_true, Bool.not_eq_true'] <;>
    (try split_ifs) <;>
    simp_all [CombatState.start_pull, CombatState.end_pull, AvoidableTracker.record_hit] <;>
    (try split) <;>
    simp_all

theorem runWithHits_inv (g : String) (es : List LogEvent) :
    ∀ (s : CombatState) (cnt : Nat → Nat),
      s.player_guid = some g →
      (∀ x, s.avoidable.hit_counts x = cnt x) →
      (runWithHits g s cnt es).1.player_guid = some g ∧
      (∀ x, (runWithHits g s cnt es).1.avoidable.hit_counts x = (runWithHits g s cnt es).2 x) := by
  induction es with
  | nil => intro s cnt h1 h2; exact ⟨h1, h2⟩
  | cons e rest ih =>
    intro s cnt h1 h2
    have hstep := specHits_step g s cnt e h1 h2
    exact ih _ _ hstep.1 hstep.2

/-- C5: at every point of every trace, the avoidable hit count of a spell
    equals the number of SpellDamage events of the current pull whose
    destination is the coached player with that spell id (the spec-side
    counter), and the count is reset to 0 by the event that opens a pull. -/
theorem C5_avoidable_hit_count :
    (∀ (g : String) (es : List LogEvent) (sid : Nat),
      (runFrom (initState (some g)) es).avoidable.hit_count sid = specHitsThisPull g es sid) ∧
    (∀ (s : CombatState) (e : LogEvent) (t sid : Nat),
      s.in_combat = false → isOpeningEvent e = true →
      (update_state s e t).avoidable.hit_count sid = 0) := by
  constructor
  · intro g es sid
    have hfst := runWithHits_fst g es (initState (some g)) (fun _ => 0)
    have hinv := runWithHits_inv g es (initState (some g)) (fun _ => 0) rfl (fun _ => rfl)
    rw [hfst] at hinv
    exact hinv.2 sid
  · intro s e t sid hc ho
    cases e <;> simp [isOpeningEvent] at ho <;>
      simp only [update_state, AvoidableTracker.hit_count, hc] <;>
      (try split_ifs) <;>
      simp_all [CombatState.start_pull]

theorem C5_witness :
    (update_state demoC5State (demoEncStart 100) 100).avoidable.hit_count 7 = 0 :=
  C5_avoidable_hit_count.2 demoC5State (demoEncStart 100) 100 7 rfl (by decide)

/-! ## Timestamp normalisation (C8) -/

theorem not_mem_of_digits (l : List Char) (hd : ∀ c ∈ l, c.isDigit) (d : Char)
    (h : d.isDigit = false) : d ∉ l := by
  intro hm
  have := hd d hm
  rw [this] at h
  cases h

theorem rfindChar_notMem (c : Char) (l : List Char) (h : c ∉ l) : rfindChar c l = none := by
  induction l with
  | nil => rfl
  | cons x xs ih =>
    have hx : x ≠ c := fun he => h (by simp [he])
    have hxs : c ∉ xs := fun hm => h (List.mem_cons_of_mem _ hm)
    simp [rfindChar, ih hxs, hx]

theorem rfindChar_append (d : List Char) (c : Char) (t : List Char) (ht : c ∉ t) :
    rfindChar c (d ++ c :: t) = some d.length := by
  induction d with
  | nil => simp [rfindChar, rfindChar_notMem c t ht]
  | cons x xs ih => simp [rfindChar, ih]

theorem drop_append_cons (d : List Char) (c : Char) (t : List Char) :
    (d ++ c :: t).drop (d.length + 1) = t := by
  induction d with
  | nil => rfl
  | cons x xs ih => simp [ih]

theorem splitOnce_append (c : Char) (l1 l2 : List Char) (h : c ∉ l1) :
    splitOnceChar c (l1 ++ c :: l2) = some (l1, l2) := by
  induction l1 with
  | nil => simp [splitOnceChar]
  | cons x xs ih =>
    have hx : x ≠ c := fun he => h (by simp [he])
    have hxs : c ∉ xs := fun hm => h (List.mem_cons_of_mem _ hm)
    simp [splitOnceChar, hx, ih hxs]

theorem parseUInt_digits (w : Nat) (l : List Char) (hne : l ≠ []) (hd : ∀ c ∈ l, c.isDigit)
    (hv : digitsVal l < 2 ^ w) : parseUInt w l = some (digitsVal l) := by
  have hhead : l.head? ≠ some '+' := by
    cases l with
    | nil => simp
    | cons x xs =>
      simp only [List.head?_cons, ne_eq, Option.some.injEq]
      intro he
      have := hd x (by simp)
      rw [he] at this
      exact absurd this (by decide)
  simp only [parseUInt, if_neg hhead]
  rw [if_pos]
  refine ⟨hne, ?_, hv⟩
  exact List.all_eq_true.mpr (fun c hc => hd c hc)

theorem frac_ms_eq (len f : Nat) (h : len ≠ 0) :
    (if len = 0 then 0
      else if len = 1 then f * 100
      else if len = 2 then f * 10
      else if len = 3 then f
      else if len = 4 then f / 10
      else f / 10 ^ (len - 3)) = spec_frac_ms len f := by
  unfold spec_frac_ms
  rcases len with _ | _ | _ | _ | _ | n <;> simp_all

/-- C8: for every well-formed log timestamp with hour, minute, second and a
    nonempty fractional-digit string, the parser returns
    (h * 3600 + m * 60 + s) * 1000 + frac_ms where frac_ms multiplies the
    fractional value by 10 ^ (3 - len) for len at most 3 and divides it by
    10 ^ (len - 3) for len at least 3, for any fractional length. -/
theorem C8_timestamp_normalisation (date hs ms ss fs : List Char)
    (hhne : hs ≠ []) (hhd : ∀ c ∈ hs, c.isDigit)
    (hmne : ms ≠ []) (hmd : ∀ c ∈ ms, c.isDigit)
    (hsne : ss ≠ []) (hsd : ∀ c ∈ ss, c.isDigit)
    (hfne : fs ≠ []) (hfd : ∀ c ∈ fs, c.isDigit)
    (hhb : digitsVal hs < 24) (hmb : digitsVal ms < 60) (hsb : digitsVal ss < 60)
    (hfb : digitsVal fs < 2 ^ 64) :
    parse_timestamp (date ++ ' ' :: (hs ++ ':' :: (ms ++ ':' :: (ss ++ '.' :: fs)))) =
      .ok (some ((digitsVal hs * 3600 + digitsVal ms * 60 + digitsVal ss) * 1000 +
        spec_frac_ms fs.length (digitsVal fs))) := by
  have hts : (' ' : Char) ∉ hs ++ ':' :: (ms ++ ':' :: (ss ++ '.' :: fs)) := by
    intro hmem
    simp only [List.mem_append, List.mem_cons] at hmem
    rcases hmem with h | h | h | h | h | h | h
    · simpa using hhd _ h
    · exact absurd h (by decide)
    · simpa using hmd _ h
    · exact absurd h (by decide)
    · simpa using hsd _ h
    · exact absurd h (by decide)
    · simpa using hfd _ h
  have hrf := rfindChar_append date ' ' _ hts
  have hcd : checkedDrop (date ++ ' ' :: (hs ++ ':' :: (ms ++ ':' :: (ss ++ '.' :: fs))))
      (date.length + 1) = .ok (hs ++ ':' :: (ms ++ ':' :: (ss ++ '.' :: fs))) := by
    unfold checkedDrop
    rw [if_pos (by simp)]
    rw [drop_append_cons]
  have hsp1 : splitOnceChar ':' (hs ++ ':' :: (ms ++ ':' :: (ss ++ '.' :: fs))) =
      some (hs, ms ++ ':' :: (ss ++ '.' :: fs)) :=
    splitOnce_append ':' hs _ (not_mem_of_digits hs hhd ':' (by decide))
  have hsp2 : splitOnceChar ':' (ms ++ ':' :: (ss ++ '.' :: fs)) =
      some (ms, ss ++ '.' :: fs) :=
    splitOnce_append ':' ms _ (not_mem_of_digits ms hmd ':' (by decide))
  have hsp3 : splitOnceChar '.' (ss ++ '.' :: fs) = some (ss, fs) :=
    splitOnce_append '.' ss _ (not_mem_of_digits ss hsd '.' (by decide))
  have hph := parseUInt_digits 64 hs hhne hhd (lt_trans hhb (by norm_num))
  have hpm := parseUInt_digits 64 ms hmne hmd (lt_trans hmb (by norm_num))
  have hps := parseUInt_digits 64 ss hsne hsd (lt_trans hsb (by norm_num))
  have hpf := parseUInt_digits 64 fs hfne hfd hfb
  simp only [parse_timestamp, hrf, hcd, hsp1, hsp2, hsp3, hph, hpm, hps, hpf,
    Option.getD_some]
  rw [frac_ms_eq fs.length (digitsVal fs) (by simpa using hfne)]

theorem C8_witness :
    parse_timestamp ("2/23/2026".toList ++ ' ' :: ("16".toList ++ ':' ::
        ("22".toList ++ ':' :: ("39".toList ++ '.' :: "2461".toList)))) =
      .ok (some 58959246) := by
  have h := C8_timestamp_normalisation ("2/23/2026".toList) ("16".toList) ("22".toList)
    ("39".toList) ("2461".toList) (by decide) (by decide) (by decide) (by decide)
    (by decide) (by decide) (by decide) (by decide) (by decide) (by decide)
    (by decide) (by decide)
  exact h.trans (by decide)

/-! ## Parser totality (C9) -/

theorem checkedTake_ok (l : List Char) (n : Nat) (h : n ≤ l.length) :
    checkedTake l n = .ok (l.take n) := by simp [checkedTake, h]

theorem checkedDrop_ok (l : List Char) (n : Nat) (h : n ≤ l.length) :
    checkedDrop l n = .ok (l.drop n) := by simp [checkedDrop, h]

theorem idxOfChar_lt (c : Char) :
    ∀ (l : List Char) (i : Nat), idxOfChar c l = some i → i < l.length := by
  intro l
  induction l with
  | nil => intro i h; simp [idxOfChar] at h
  | cons x xs ih =>
    intro i h
    simp only [idxOfChar] at h
    split_ifs at h with hx
    · simp only [Option.some.injEq] at h
      simp only [List.length_cons]
      omega
    · cases hm : idxOfChar c xs with
      | none => rw [hm] at h; simp at h
      | some j =>
        rw [hm] at h
        simp only [Option.map_some', Option.some.injEq] at h
        have := ih j hm
        simp only [List.length_cons]
        omega

theorem quotedStep_ok (rest : List Char) (fieldEnd : Nat) (hle : fieldEnd ≤ rest.length)
    (n : Nat) (ih : ∀ l, ∃ r, csvFieldsGo n l = .ok r) :
    ∃ r : List (List Char),
      (match checkedTake rest fieldEnd, checkedDrop rest fieldEnd with
      | Except.ok field, Except.ok after =>
        (match (if after.head? = some ',' then checkedDrop after 1
            else Except.ok after : Except Unit (List Char)) with
          | Except.error e => Except.error e
          | Except.ok r2 => Except.map (fun fs => field :: fs) (csvFieldsGo n r2))
      | Except.error e, _ => Except.error e
      | _, Except.error e => Except.error e) = Except.ok r := by
  rw [checkedTake_ok rest fieldEnd hle, checkedDrop_ok rest fieldEnd hle]
  dsimp only
  by_cases hc : (rest.drop fieldEnd).head? = some ','
  · have h1 : 1 ≤ (rest.drop fieldEnd).length := by
      cases hx : rest.drop fieldEnd <;> rw [hx] at hc <;> simp_all
    rw [if_pos hc, checkedDrop_ok _ 1 h1]
    obtain ⟨r, hr⟩ := ih ((rest.drop fieldEnd).drop 1)
    dsimp only
    rw [hr]
    exact ⟨_, rfl⟩
  · rw [if_neg hc]
    obtain ⟨r, hr⟩ := ih (rest.drop fieldEnd)
    dsimp only
    rw [hr]
    exact ⟨_, rfl⟩

theorem unquotedStep_ok (rest : List Char) (stop : Nat) (hle : stop ≤ rest.length)
    (n : Nat) (ih : ∀ l, ∃ r, csvFieldsGo n l = .ok r) :
    ∃ r : List (List Char),
      (match checkedTake rest stop with
      | Except.error e => Except.error e
      | Except.ok field =>
        (match (if stop < rest.length then checkedDrop rest (stop + 1)
            else Except.ok [] : Except Unit (List Char)) with
          | Except.error e => Except.error e
          | Except.ok r2 => Except.map (fun fs => field :: fs) (csvFieldsGo n r2))) =
        Except.ok r := by
  rw [checkedTake_ok rest stop hle]
  dsimp only
  by_cases hlt : stop < rest.length
  · rw [if_pos hlt, checkedDrop_ok rest (stop + 1) (by omega)]
    obtain ⟨r, hr⟩ := ih (rest.drop (stop + 1))
    dsimp only
    rw [hr]
    exact ⟨_, rfl⟩
  · rw [if_neg hlt]
    obtain ⟨r, hr⟩ := ih []
    dsimp only
    rw [hr]
    exact ⟨_, rfl⟩

theorem csvFieldsGo_ok :
    ∀ (fuel : Nat) (rest : List Char), ∃ r, csvFieldsGo fuel rest = .ok r := by
  intro fuel
  induction fuel with
  | zero => intro rest; exact ⟨[], rfl⟩
  | succ n ih =>
    intro rest
    by_cases he : rest.isEmpty = true
    · exact ⟨[], by simp [csvFieldsGo, he]⟩
    · by_cases hq : rest.head? = some '"'
      · have hlen : 1 ≤ rest.length := by cases rest <;> simp_all
        simp only [csvFieldsGo]
        rw [if_neg he, if_pos hq, checkedDrop_ok rest 1 hlen]
        dsimp only
        exact quotedStep_ok rest _ (Nat.min_le_right _ _) n ih
      · have hstop : ((idxOfChar ',' rest).getD rest.length) ≤ rest.length := by
          cases hm : idxOfChar ',' rest with
          | none => simp
          | some j => simpa using le_of_lt (idxOfChar_lt ',' rest j hm)
        simp only [csvFieldsGo]
        rw [if_neg he, if_neg hq]
        exact unquotedStep_ok rest _ hstop n ih

theorem rfindChar_lt (c : Char) :
    ∀ (l : List Char) (i : Nat), rfindChar c l = some i → i < l.length := by
  intro l
  induction l with
  | nil => intro i h; simp [rfindChar] at h
  | cons x xs ih =>
    intro i h
    simp only [rfindChar] at h
    cases hm : rfindChar c xs with
    | none =>
      simp only [hm] at h
      by_cases hx : x = c
      · rw [if_pos hx] at h
        simp only [Option.some.injEq] at h
        simp only [List.length_cons]
        omega
      · rw [if_neg hx] at h
        cases h
    | some j =>
      simp only [hm, Option.some.injEq] at h
      have := ih j hm
      simp only [List.length_cons]
      omega

theorem findDoubleSpace_lt :
    ∀ (l : List Char) (i : Nat), findDoubleSpace l = some i → i + 2 ≤ l.length := by
  intro l
  induction l with
  | nil => intro i h; simp [findDoubleSpace] at h
  | cons a tail ih =>
    intro i h
    cases tail with
    | nil => simp [findDoubleSpace] at h
    | cons b rest =>
      simp only [findDoubleSpace] at h
      split_ifs at h with hab
      · simp only [Option.some.injEq] at h
        simp only [List.length_cons]
        omega
      · cases hm : findDoubleSpace (b :: rest) with
        | none => rw [hm] at h; simp at h
        | some j =>
          rw [hm] at h
          simp only [Option.map_some', Option.some.injEq] at h
          have := ih j hm
          simp only [List.length_cons] at this ⊢
          omega

theorem parse_timestamp_ok (dt : List Char) : ∃ r, parse_timestamp dt = .ok r := by
  unfold parse_timestamp
  cases hrf : rfindChar ' ' dt with
  | none => exact ⟨none, rfl⟩
  | some spacePos =>
    have hlt := rfindChar_lt ' ' dt spacePos hrf
    dsimp only
    rw [checkedDrop_ok dt (spacePos + 1) (by omega)]
    dsimp only
    cases splitOnceChar ':' (dt.drop (spacePos + 1)) with
    | none => exact ⟨none, rfl⟩
    | some p1 =>
      cases p1 with
      | mk hs r1 =>
        dsimp only
        cases splitOnceChar ':' r1 with
        | none => exact ⟨none, rfl⟩
        | some p2 =>
          cases p2 with
          | mk mins sm =>
            dsimp only
            cases parseUInt 64 hs with
            | none => exact ⟨none, rfl⟩
            | some h =>
              cases parseUInt 64 mins with
              | none => exact ⟨none, rfl⟩
              | some m =>
                dsimp only
                cases parseUInt 64 ((splitOnceChar '.' sm).getD (sm, ['0'])).1 with
                | none => exact ⟨none, rfl⟩
                | some sv =>
                  cases parseUInt 64 ((splitOnceChar '.' sm).getD (sm, ['0'])).2 with
                  | none => exact ⟨none, rfl⟩
                  | some fv => exact ⟨_, rfl⟩

theorem split_line_ok (raw : List Char) : ∃ r, split_line raw = .ok r := by
  unfold split_line
  cases hds : findDoubleSpace raw with
  | none => exact ⟨none, rfl⟩
  | some sep =>
    have h2 := findDoubleSpace_lt raw sep hds
    dsimp only
    rw [checkedTake_ok raw sep (by omega), checkedDrop_ok raw (sep + 2) h2]
    dsimp only
    obtain ⟨rts, hts⟩ := parse_timestamp_ok (raw.take sep)
    rw [hts]
    cases rts with
    | none => exact ⟨none, rfl⟩
    | some ts =>
      dsimp only
      obtain ⟨rf, hrf⟩ := csvFieldsGo_ok 30 (raw.drop (sep + 2))
      rw [show csv_fields (raw.drop (sep + 2)) 30 = csvFieldsGo 30 (raw.drop (sep + 2))
        from rfl, hrf]
      exact ⟨_, rfl⟩

theorem parse_line_ok (raw : List Char) : ∃ r, parse_line raw = .ok r := by
  unfold parse_line
  obtain ⟨r, hr⟩ := split_line_ok raw
  rw [hr]
  cases r with
  | none => exact ⟨none, rfl⟩
  | some p =>
    cases p with
    | mk ts f => exact ⟨_, rfl⟩

/-- C9: parse_line is total — for every input line, including the empty
    line, lines without the double-space separator, unterminated quotes,
    missing fields and non-numeric values, it returns ok of some event or of
    none and never reaches an aborting slice operation; garbage lines and
    lines with an unrecognised subevent token yield none. -/
theorem C9_parse_line_total :
    (∀ raw : List Char, ∃ r : Option LogEvent, parse_line raw = .ok r) ∧
    parse_line "".toList = .ok none ∧
    parse_line "not a log line".toList = .ok none ∧
    parse_line ("5/21 20:14:33.456  WEIRD_EVENT,Creature-1,\"Boss\",0x0,0x0,Player-1,\"Guy\",0x0,0x0".toList) = .ok none :=
  ⟨parse_line_ok, by decide, by decide, by decide⟩

end CombatCoaching
